import Mathlib

/-!
# cert-manager DNSimple webhook: `main.go`

A shallow embedding of the DNS-01 solver in `main.go` and theorems about it.

* Go strings are byte sequences (`GoString`).
* The Kubernetes secret store and the DNSimple REST API are external
  collaborators: they are fields of `World`, over an abstract state `σ`.
* Every provider request a handler issues is logged, with its response, in the
  `trace` of the resulting `Run`.
* A handler either returns an `error` value (`nil` is `none`) or stops with a
  run-time panic (nil pointer dereference).
-/

set_option autoImplicit false
set_option maxRecDepth 20000

namespace DNSimple

/-! ## Strings -/

/-- A Go `string`: an immutable sequence of bytes. -/
abbrev GoString := List UInt8

/-- The UTF-8 bytes of a string literal. -/
def utf8 (s : String) : GoString := s.data.flatMap String.utf8EncodeChar

/-- The byte `'.'`. -/
def dot : UInt8 := 46

/-- Go `strings.Index(s, substr)`, scanning from offset `i`: the index of the
first instance of `substr` in `s`, or `-1` if there is none. -/
def indexFrom (substr : GoString) : GoString → Nat → Int
  | [], i => if substr.isPrefixOf [] then (i : Int) else -1
  | c :: t, i => if substr.isPrefixOf (c :: t) then (i : Int) else indexFrom substr t (i + 1)

/-- Go `strings.Index(s, substr)`. -/
def stringsIndex (s substr : GoString) : Int := indexFrom substr s 0

/-- Go `strings.Contains(s, substr)`, which is `Index(s, substr) >= 0`. -/
def stringsContains (s substr : GoString) : Bool := decide (stringsIndex s substr ≥ 0)

/-- Go `strings.TrimRight(s, cutset)`: `s` with all trailing bytes contained in
`cutset` removed (the cutsets used are ASCII, where runes are bytes). -/
def stringsTrimRight (s cutset : GoString) : GoString :=
  (s.reverse.dropWhile (fun c => cutset.contains c)).reverse

/-- The function `util.UnFqdn` of cert-manager (`pkg/issuer/acme/dns/util`):
```go
func UnFqdn(name string) string {
	n := len(name)
	if n != 0 && name[n-1] == '.' {
		return name[:n-1]
	}
	return name
}
```
It removes one trailing dot. -/
def UnFqdn (name : GoString) : GoString :=
  let n := name.length
  if n ≠ 0 ∧ name.getLast? = some dot then name.take (n - 1) else name

/-- The function `extractRecordName` of `main.go`. -/
def extractRecordName (fqdn domain : GoString) : GoString :=
  let name := UnFqdn fqdn
  let idx := stringsIndex name (dot :: UnFqdn domain)
  if idx ≠ -1 then name.take idx.toNat else name

/-! ## Data model -/

/-- A Go `error`, identified with the message `err.Error()` it carries. -/
structure GoError where
  msg : GoString
  deriving DecidableEq, Repr

/-- Go `errors.New(text)`. -/
def errorsNew (text : String) : GoError := ⟨utf8 text⟩

/-- Go `fmt.Errorf(prefix + "%v", err)`: the text followed by `err.Error()`. -/
def fmtErrorfV (text : String) (err : GoError) : GoError := ⟨utf8 text ++ err.msg⟩

/-- The fields of `corev1.SecretKeySelector` that `main.go` reads. -/
structure SecretKeySelector where
  Name : GoString
  Key : GoString
  deriving DecidableEq, Repr

/-- The struct `dnsimpleProviderConfig` of `main.go`. -/
structure dnsimpleProviderConfig where
  AccountID : GoString
  AccessTokenSecretRef : SecretKeySelector
  deriving DecidableEq, Repr

/-- The fields of `v1alpha1.ChallengeRequest` that `main.go` reads; `Config` is
the raw JSON document, `none` for a nil pointer. -/
structure ChallengeRequest where
  ResolvedFQDN : GoString
  ResolvedZone : GoString
  Key : GoString
  ResourceNamespace : GoString
  Config : Option GoString
  AllowAmbientCredentials : Bool
  deriving DecidableEq, Repr

/-- The fields of `dnsimple.ZoneRecord` that `main.go` writes or reads (`Type_`
is the field `Type`). -/
structure ZoneRecord where
  ID : Int
  Name : GoString
  Type_ : GoString
  TTL : Int
  Content : GoString
  deriving DecidableEq, Repr

/-- A `*dnsimple.Client`, determined by the OAuth2 access token of its static
token source. -/
structure Client where
  AccessToken : GoString
  deriving DecidableEq, Repr

/-- What `Secrets(namespace).Get(name, ...)` answers: the secret's `Data` map,
or an error. -/
inductive SecretResult where
  | found (data : GoString → Option GoString)
  | failed (err : GoError)

/-- What `Zones.ListRecords` answers: the records of `resp.Data`, or an error. -/
inductive ListResult where
  | ok (data : List ZoneRecord)
  | failed (err : GoError)
  deriving DecidableEq, Repr

/-- A request issued to the DNS provider, with the answer it got. -/
inductive Event where
  | createRecord (client : Client) (accountID zone : GoString) (record : ZoneRecord)
      (resp : Option GoError)
  | listRecords (client : Client) (accountID zone name : GoString) (resp : ListResult)
  | deleteRecord (client : Client) (accountID zone : GoString) (recordID : Int)
      (resp : Option GoError)
  deriving DecidableEq, Repr

/-- How a handler call ends: it returns an `error` (`none` is `nil`), or it
panics on a nil pointer dereference. -/
inductive Outcome where
  | returned (err : Option GoError)
  | panicked
  deriving DecidableEq, Repr

/-- The result of running a handler: how it ended, the provider requests it
issued in order, and the state of the outside world afterwards. -/
structure Run (σ : Type) where
  outcome : Outcome
  trace : List Event
  state : σ

/-- The external collaborators of the solver, over a world state `σ`: the JSON
decoder and `%q` formatter of the Go standard library, the Kubernetes secret
store, and the three DNSimple API calls. -/
structure World (σ : Type) where
  /-- Go `json.Unmarshal(raw, &cfg)`: the value of `cfg` afterwards, and the error. -/
  jsonUnmarshal : GoString → dnsimpleProviderConfig → dnsimpleProviderConfig × Option GoError
  /-- The rendering of a string by `%q` in `fmt.Errorf`. -/
  fmtQuote : GoString → GoString
  /-- The call `s.client.CoreV1().Secrets(namespace).Get(name, ...)`. -/
  getSecret : σ → GoString → GoString → SecretResult × σ
  /-- The call `Zones.CreateRecord(accountID, zone, record)` on a client. -/
  CreateRecord : σ → Client → GoString → GoString → ZoneRecord → Option GoError × σ
  /-- The call `Zones.ListRecords(accountID, zone, &ZoneRecordListOptions{Name: name})`. -/
  ListRecords : σ → Client → GoString → GoString → GoString → ListResult × σ
  /-- The call `Zones.DeleteRecord(accountID, zone, recordID)`. -/
  DeleteRecord : σ → Client → GoString → GoString → Int → Option GoError × σ

/-! ## The solver -/

section Solver

variable {σ : Type}

/-- The method `validate` of `main.go`. -/
def validate (cfg : dnsimpleProviderConfig) (allowAmbientCredentials : Bool) : Option GoError :=
  if allowAmbientCredentials then none
  else if cfg.AccountID = [] then some (errorsNew "no account id provided in dnsimple config")
  else if cfg.AccessTokenSecretRef.Name = [] then
    some (errorsNew "no access token secret provided in dnsimple config")
  else none

/-- The function `loadConfig` of `main.go`. -/
def loadConfig (w : World σ) (cfgJSON : Option GoString) : dnsimpleProviderConfig × Option GoError :=
  let cfg : dnsimpleProviderConfig := ⟨[], ⟨[], []⟩⟩
  match cfgJSON with
  | none => (cfg, none)
  | some raw =>
    match w.jsonUnmarshal raw cfg with
    | (cfg, some err) => (cfg, some (fmtErrorfV "error decoding dnsimple config: " err))
    | (cfg, none) => (cfg, none)

/-- The method `secret` of `main.go`: the token, the error, and the world state
after the lookup. -/
def secret (w : World σ) (s : σ) (ref : SecretKeySelector) (ns : GoString) :
    GoString × Option GoError × σ :=
  if ref.Name = [] then ([], none, s)
  else
    match w.getSecret s ns ref.Name with
    | (SecretResult.failed err, s) => ([], some err, s)
    | (SecretResult.found data, s) =>
      match data ref.Key with
      | none =>
        ([], some ⟨utf8 "key not found " ++ w.fmtQuote ref.Key ++ utf8 " in secret '" ++ ns
            ++ utf8 "/" ++ ref.Name ++ utf8 "'"⟩, s)
      | some bytes => (bytes, none, s)

/-- The method `dnsimpleClient` of `main.go`: the client pointer (`none` is
`nil`), the error, and the world state afterwards. The error of `s.secret` is
assigned and not read. -/
def dnsimpleClient (w : World σ) (s : σ) (ch : ChallengeRequest) :
    Option Client × Option GoError × σ :=
  match loadConfig w ch.Config with
  | (_, some err) => (none, some err, s)
  | (cfg, none) =>
    match validate cfg ch.AllowAmbientCredentials with
    | some err => (none, some err, s)
    | none =>
      match secret w s cfg.AccessTokenSecretRef ch.ResourceNamespace with
      | (accessToken, _, s) => (some ⟨accessToken⟩, none, s)

/-- The method `Present` of `main.go`. The error of `s.dnsimpleClient` is
overwritten unread, and `dnsclient.Zones` dereferences the returned pointer. -/
def Present (w : World σ) (ch : ChallengeRequest) (s : σ) : Run σ :=
  match loadConfig w ch.Config with
  | (_, some err) => ⟨Outcome.returned (some err), [], s⟩
  | (cfg, none) =>
    match dnsimpleClient w s ch with
    | (none, _, s) => ⟨Outcome.panicked, [], s⟩
    | (some dnsclient, _, s) =>
      let zone := stringsTrimRight ch.ResolvedZone (utf8 ".")
      let record : ZoneRecord :=
        { ID := 0
          Name := extractRecordName ch.ResolvedFQDN ch.ResolvedZone
          Type_ := utf8 "TXT"
          TTL := 300
          Content := ch.Key }
      match w.CreateRecord s dnsclient cfg.AccountID zone record with
      | (some err, s) =>
        let ev := Event.createRecord dnsclient cfg.AccountID zone record (some err)
        if stringsContains err.msg (utf8 "record already exists") then
          ⟨Outcome.returned none, [ev], s⟩
        else ⟨Outcome.returned (some err), [ev], s⟩
      | (none, s) =>
        ⟨Outcome.returned none, [Event.createRecord dnsclient cfg.AccountID zone record none], s⟩

/-- The loop `for _, r := range resp.Data` of `CleanUp`. -/
def deleteRecords (w : World σ) (dnsclient : Client) (accountID zone : GoString) :
    List ZoneRecord → σ → Run σ
  | [], s => ⟨Outcome.returned none, [], s⟩
  | r :: rs, s =>
    match w.DeleteRecord s dnsclient accountID zone r.ID with
    | (some err, s) =>
      ⟨Outcome.returned (some (fmtErrorfV "error deleting record: " err)),
        [Event.deleteRecord dnsclient accountID zone r.ID (some err)], s⟩
    | (none, s) =>
      let rest := deleteRecords w dnsclient accountID zone rs s
      ⟨rest.outcome, Event.deleteRecord dnsclient accountID zone r.ID none :: rest.trace,
        rest.state⟩

/-- The method `CleanUp` of `main.go`. -/
def CleanUp (w : World σ) (ch : ChallengeRequest) (s : σ) : Run σ :=
  match loadConfig w ch.Config with
  | (_, some err) => ⟨Outcome.returned (some err), [], s⟩
  | (cfg, none) =>
    match dnsimpleClient w s ch with
    | (none, _, s) => ⟨Outcome.panicked, [], s⟩
    | (some dnsclient, _, s) =>
      let zone := UnFqdn ch.ResolvedZone
      let name := extractRecordName ch.ResolvedFQDN ch.ResolvedZone
      match w.ListRecords s dnsclient cfg.AccountID zone name with
      | (ListResult.failed err, s) =>
        ⟨Outcome.returned (some (fmtErrorfV "error listing zone records: " err)),
          [Event.listRecords dnsclient cfg.AccountID zone name (ListResult.failed err)], s⟩
      | (ListResult.ok data, s) =>
        let rest := deleteRecords w dnsclient cfg.AccountID zone data s
        ⟨rest.outcome,
          Event.listRecords dnsclient cfg.AccountID zone name (ListResult.ok data) :: rest.trace,
          rest.state⟩

end Solver

/-! ## A sample world

An in-memory secret store and DNS zone, used to run the solver on concrete
requests. -/

/-- The state of the sample world: the stored secret entries (namespace, secret
name, data key, data value) and the TXT records of the zone. -/
structure SampleState where
  secrets : List (GoString × GoString × GoString × GoString)
  records : List ZoneRecord
  deriving DecidableEq, Repr

/-- The configuration that the sample decoder reads from `sampleJSON`. -/
def sampleConfig : dnsimpleProviderConfig :=
  ⟨utf8 "1010", ⟨utf8 "dnsimple-credentials", utf8 "token"⟩⟩

/-- The JSON document of `sampleConfig`. -/
def sampleJSON : GoString :=
  utf8 "\x7b\"accountId\":\"1010\",\"accessTokenSecretRef\":\x7b\"name\":\"dnsimple-credentials\",\"key\":\"token\"\x7d\x7d"

/-- A JSON document that sets the account id and no secret reference. -/
def accountOnlyJSON : GoString := utf8 "\x7b\"accountId\":\"1010\"\x7d"

/-- The sample world. Its decoder knows the documents `sampleJSON` and
`accountOnlyJSON` and rejects every other one; a secret exists when it has an entry; the zone rejects a
record whose name and content are already present, lists by name and deletes
by id. -/
def sampleWorld : World SampleState where
  jsonUnmarshal := fun raw cfg =>
    if raw = sampleJSON then (sampleConfig, none)
    else if raw = accountOnlyJSON then ({ cfg with AccountID := utf8 "1010" }, none)
    else (cfg, some ⟨utf8 "invalid character"⟩)
  fmtQuote := fun k => utf8 "\"" ++ k ++ utf8 "\""
  getSecret := fun s ns name =>
    let entries := s.secrets.filter (fun e => e.1 = ns ∧ e.2.1 = name)
    if entries.isEmpty then (SecretResult.failed ⟨utf8 "secret not found"⟩, s)
    else (SecretResult.found (fun k => (entries.find? (fun e => e.2.2.1 = k)).map (fun e => e.2.2.2)), s)
  CreateRecord := fun s _ _ _ r =>
    if s.records.any (fun x => x.Name = r.Name ∧ x.Content = r.Content) then
      (some ⟨utf8 "Validation failed: record already exists"⟩, s)
    else (none, { s with records := s.records ++ [{ r with ID := s.records.length + 1 }] })
  ListRecords := fun s _ _ _ name => (ListResult.ok (s.records.filter (fun x => x.Name = name)), s)
  DeleteRecord := fun s _ _ _ recordID =>
    (none, { s with records := s.records.filter (fun x => x.ID ≠ recordID) })

/-- A secret store holding the access token of `sampleConfig` in namespace
`cert-manager`. -/
def sampleSecrets : List (GoString × GoString × GoString × GoString) :=
  [(utf8 "cert-manager", utf8 "dnsimple-credentials", utf8 "token", utf8 "s3cr3t")]

/-- A challenge for `example.com` with key `k1` and the sample configuration. -/
def sampleRequest : ChallengeRequest :=
  { ResolvedFQDN := utf8 "_acme-challenge.example.com."
    ResolvedZone := utf8 "example.com."
    Key := utf8 "k1"
    ResourceNamespace := utf8 "cert-manager"
    Config := some sampleJSON
    AllowAmbientCredentials := false }

/-- The sample world with a DNS provider that is out of service: it answers
every `CreateRecord` with an error. -/
def downWorld : World SampleState :=
  { sampleWorld with
    CreateRecord := fun s _ _ _ _ => (some ⟨utf8 "503 Service Unavailable"⟩, s) }

/-- The sample request with a zone and a name that end in two dots. -/
def dottedRequest : ChallengeRequest :=
  { sampleRequest with
    ResolvedFQDN := utf8 "_acme-challenge.example.com.."
    ResolvedZone := utf8 "example.com.." }

/-- The sample request for the name `example.com.example.com` of the zone
`example.com`: the relative record name is `_acme-challenge.example.com`. -/
def nestedRequest : ChallengeRequest :=
  { sampleRequest with ResolvedFQDN := utf8 "_acme-challenge.example.com.example.com." }

/-- The sample request without configuration (a nil `Config`). -/
def noConfigRequest : ChallengeRequest := { sampleRequest with Config := none }

/-- The sample request with a configuration that names no secret. -/
def noSecretRefRequest : ChallengeRequest := { sampleRequest with Config := some accountOnlyJSON }

/-- A secret store whose secret `dnsimple-credentials` lacks the key `token`. -/
def otherKeySecrets : List (GoString × GoString × GoString × GoString) :=
  [(utf8 "cert-manager", utf8 "dnsimple-credentials", utf8 "password", utf8 "hunter2")]

/-- The record that `sampleRequest` asks for, as the zone stores it. -/
def recordK1 : ZoneRecord := ⟨1, utf8 "_acme-challenge", utf8 "TXT", 300, utf8 "k1"⟩

/-- A record of a concurrent validation: the same name, another key. -/
def recordK2 : ZoneRecord := ⟨2, utf8 "_acme-challenge", utf8 "TXT", 300, utf8 "k2"⟩

/-! ## Lemmas on strings -/

theorem utf8_dot : utf8 "." = [dot] := by decide

theorem UnFqdn_append_dot (x : GoString) : UnFqdn (x ++ [dot]) = x := by
  simp [UnFqdn]

theorem UnFqdn_of_getLast?_ne (x : GoString) (h : x.getLast? ≠ some dot) : UnFqdn x = x := by
  simp [UnFqdn, h]

theorem getLast?_append_dot_cons (n z : GoString) (hz : z ≠ []) :
    (n ++ dot :: z).getLast? = z.getLast? := by
  have h : n ++ dot :: z = (n ++ [dot]) ++ z := by simp
  rw [h, List.getLast?_append]
  cases hzl : z.getLast? with
  | none => exact absurd (List.getLast?_eq_none_iff.mp hzl) hz
  | some a => simp

/-- The scan finds the occurrence after `n` when there is none inside `n`. -/
theorem indexFrom_append (sub n rest : GoString) (i : Nat)
    (hfirst : ∀ j, j < n.length → ¬ sub <+: (n ++ rest).drop j) (hp : sub <+: rest) :
    indexFrom sub (n ++ rest) i = ((i + n.length : Nat) : Int) := by
  induction n generalizing i with
  | nil =>
    cases rest with
    | nil => simp [indexFrom, List.isPrefixOf_iff_prefix.mpr hp]
    | cons c t => simp [indexFrom, List.isPrefixOf_iff_prefix.mpr hp]
  | cons c t ih =>
    have h0 : ¬ sub <+: (c :: t ++ rest) := by simpa using hfirst 0 (by simp)
    have h0b : sub.isPrefixOf (c :: (t ++ rest)) = false := by
      rw [Bool.eq_false_iff]
      intro hb
      exact h0 (List.isPrefixOf_iff_prefix.mp hb)
    have ht : ∀ j, j < t.length → ¬ sub <+: (t ++ rest).drop j := by
      intro j hj
      simpa using hfirst (j + 1) (by simpa using hj)
    have hstep : indexFrom sub (c :: (t ++ rest)) i = indexFrom sub (t ++ rest) (i + 1) := by
      rw [indexFrom, h0b]
      simp
    rw [List.cons_append, hstep, ih (i + 1) ht]
    simp only [List.length_cons]
    congr 1
    omega

/-- The scan stops at or before every occurrence. -/
theorem indexFrom_le (sub : GoString) (s : GoString) (i j : Nat)
    (hj : sub <+: s.drop j) (hjl : j ≤ s.length) :
    ∃ k, k ≤ j ∧ indexFrom sub s i = ((i + k : Nat) : Int) := by
  induction s generalizing i j with
  | nil =>
    have hj0 : j = 0 := by simpa using hjl
    subst hj0
    have hj1 : sub <+: ([] : GoString) := hj
    exact ⟨0, le_refl 0, by simp [indexFrom, List.isPrefixOf_iff_prefix.mpr hj1]⟩
  | cons c t ih =>
    by_cases hb : sub.isPrefixOf (c :: t) = true
    · exact ⟨0, Nat.zero_le j, by rw [indexFrom, if_pos hb]; simp⟩
    · cases j with
      | zero =>
        have hj1 : sub <+: c :: t := hj
        exact absurd (List.isPrefixOf_iff_prefix.mpr hj1) hb
      | succ j =>
        obtain ⟨k, hk, hidx⟩ := ih (i + 1) j (by simpa using hj) (by simpa using hjl)
        refine ⟨k + 1, by omega, ?_⟩
        rw [indexFrom, if_neg hb, hidx]
        congr 1
        omega

/-- On a name `n.z` and a zone `z`, both without trailing dot, `extractRecordName`
cuts at the first `.z`. -/
theorem extractRecordName_core (n z : GoString) (hz : z ≠ []) (hzd : z.getLast? ≠ some dot)
    (hfirst : ∀ j, j < n.length → ¬ (dot :: z) <+: (n ++ dot :: z).drop j) :
    extractRecordName (n ++ dot :: z) z = n := by
  have hname : UnFqdn (n ++ dot :: z) = n ++ dot :: z :=
    UnFqdn_of_getLast?_ne _ (by rw [getLast?_append_dot_cons n z hz]; exact hzd)
  have hidx : stringsIndex (n ++ dot :: z) (dot :: z) = ((0 + n.length : Nat) : Int) :=
    indexFrom_append (dot :: z) n (dot :: z) 0 hfirst (List.prefix_refl _)
  simp only [extractRecordName, hname, UnFqdn_of_getLast?_ne z hzd, hidx]
  simp

/-- A trailing dot on either argument of `extractRecordName` is immaterial. -/
theorem extractRecordName_dots (n z : GoString) (hz : z ≠ []) (hzd : z.getLast? ≠ some dot) :
    extractRecordName (n ++ dot :: z ++ [dot]) (z ++ [dot]) = extractRecordName (n ++ dot :: z) z ∧
    extractRecordName (n ++ dot :: z) (z ++ [dot]) = extractRecordName (n ++ dot :: z) z ∧
    extractRecordName (n ++ dot :: z ++ [dot]) z = extractRecordName (n ++ dot :: z) z := by
  have hname : UnFqdn (n ++ dot :: z) = n ++ dot :: z :=
    UnFqdn_of_getLast?_ne _ (by rw [getLast?_append_dot_cons n z hz]; exact hzd)
  refine ⟨?_, ?_, ?_⟩ <;>
    simp only [extractRecordName, UnFqdn_append_dot, hname, UnFqdn_of_getLast?_ne z hzd]

/-- When `.z` occurs in `n.z` before offset `len(n)`, the result is shorter than `n`. -/
theorem extractRecordName_short (n z : GoString) (hz : z ≠ []) (hzd : z.getLast? ≠ some dot)
    (j : Nat) (hj : j < n.length) (hocc : (dot :: z) <+: (n ++ dot :: z).drop j) :
    (extractRecordName (n ++ dot :: z) z).length < n.length := by
  have hname : UnFqdn (n ++ dot :: z) = n ++ dot :: z :=
    UnFqdn_of_getLast?_ne _ (by rw [getLast?_append_dot_cons n z hz]; exact hzd)
  obtain ⟨k, hk, hidx⟩ := indexFrom_le (dot :: z) (n ++ dot :: z) 0 j hocc
    (by simp only [List.length_append]; omega)
  have hidx2 : stringsIndex (n ++ dot :: z) (dot :: z) = ((0 + k : Nat) : Int) := hidx
  simp only [extractRecordName, hname, UnFqdn_of_getLast?_ne z hzd, hidx2]
  have hne : ((0 + k : Nat) : Int) ≠ -1 := by omega
  rw [if_pos hne]
  simp only [List.length_take, List.length_append, Int.toNat_ofNat]
  omega

theorem stringsTrimRight_concat_dot (l : GoString) :
    stringsTrimRight (l ++ [dot]) [dot] = stringsTrimRight l [dot] := by
  simp [stringsTrimRight, List.dropWhile]

theorem stringsTrimRight_concat_ne (l : GoString) (a : UInt8) (h : a ≠ dot) :
    stringsTrimRight (l ++ [a]) [dot] = l ++ [a] := by
  simp [stringsTrimRight, List.dropWhile, h]

theorem stringsTrimRight_length_le (l cutset : GoString) :
    (stringsTrimRight l cutset).length ≤ l.length := by
  have h := (List.dropWhile_sublist (fun c => cutset.contains c) (l := l.reverse)).length_le
  simpa [stringsTrimRight] using h

/-- Trimming the dots changes nothing exactly when there is no trailing dot. -/
theorem stringsTrimRight_eq_self_iff (l : GoString) :
    stringsTrimRight l [dot] = l ↔ l.getLast? ≠ some dot := by
  rcases List.eq_nil_or_concat l with rfl | ⟨t, a, rfl⟩
  · simp [stringsTrimRight]
  · by_cases ha : a = dot
    · subst ha
      rw [List.concat_eq_append, stringsTrimRight_concat_dot]
      constructor
      · intro h
        have hl := stringsTrimRight_length_le t [dot]
        rw [h] at hl
        simp at hl
      · intro h
        simp at h
    · rw [List.concat_eq_append, stringsTrimRight_concat_ne t a ha]
      simp [ha]

/-- The zone names of `Present` (`strings.TrimRight`) and of `CleanUp`
(`util.UnFqdn`) agree exactly on the zones that do not end in two dots. -/
theorem stringsTrimRight_eq_UnFqdn_iff (zone : GoString) :
    stringsTrimRight zone (utf8 ".") = UnFqdn zone ↔ ¬ [dot, dot] <:+ zone := by
  rw [utf8_dot]
  rcases List.eq_nil_or_concat zone with rfl | ⟨t, a, rfl⟩
  · simp [stringsTrimRight, UnFqdn]
  · by_cases ha : a = dot
    · subst ha
      rw [List.concat_eq_append, stringsTrimRight_concat_dot,
        UnFqdn_append_dot, stringsTrimRight_eq_self_iff]
      have hsuf : [dot, dot] <:+ t ++ [dot] ↔ t.getLast? = some dot := by
        constructor
        · rintro ⟨p, hp⟩
          have hp2 : (p ++ [dot]) ++ [dot] = t ++ [dot] := by simpa using hp
          have hp3 : p ++ [dot] = t := (List.append_left_inj [dot]).mp hp2
          rw [← hp3]
          simp
        · intro h
          rcases List.eq_nil_or_concat t with rfl | ⟨u, b, rfl⟩
          · simp at h
          · simp at h
            subst h
            exact ⟨u, by simp⟩
      rw [hsuf]
    · have hne : (t ++ [a]).getLast? ≠ some dot := by simp [ha]
      rw [List.concat_eq_append, stringsTrimRight_concat_ne t a ha,
        UnFqdn_of_getLast?_ne _ hne]
      simp only [true_iff]
      intro hsuf
      obtain ⟨p, hp⟩ := hsuf
      have hl := congrArg List.getLast? hp
      simp at hl
      exact ha hl.symm

/-! ## Lemmas on the solver -/

section SolverLemmas

variable {σ : Type}

/-- With a decodable configuration that passes `validate`, `dnsimpleClient`
returns a client and a nil error, whatever the secret lookup answered. -/
theorem dnsimpleClient_of_valid (w : World σ) (s : σ) (ch : ChallengeRequest)
    (hdec : (loadConfig w ch.Config).2 = none)
    (hval : validate (loadConfig w ch.Config).1 ch.AllowAmbientCredentials = none) :
    dnsimpleClient w s ch =
      (some ⟨(secret w s (loadConfig w ch.Config).1.AccessTokenSecretRef ch.ResourceNamespace).1⟩,
        none,
        (secret w s (loadConfig w ch.Config).1.AccessTokenSecretRef ch.ResourceNamespace).2.2) := by
  rcases hlc : loadConfig w ch.Config with ⟨cfg, err⟩
  rw [hlc] at hdec hval
  simp only at hdec hval
  subst hdec
  simp only [dnsimpleClient, hlc, hval]

/-- With a decodable configuration that `validate` rejects, `dnsimpleClient`
returns a nil client and the error of `validate`. -/
theorem dnsimpleClient_of_invalid (w : World σ) (s : σ) (ch : ChallengeRequest) (e : GoError)
    (hdec : (loadConfig w ch.Config).2 = none)
    (hval : validate (loadConfig w ch.Config).1 ch.AllowAmbientCredentials = some e) :
    dnsimpleClient w s ch = (none, some e, s) := by
  rcases hlc : loadConfig w ch.Config with ⟨cfg, err⟩
  rw [hlc] at hdec hval
  simp only at hdec hval
  subst hdec
  simp only [dnsimpleClient, hlc, hval]

/-- The three ways a call of `Present` goes: the configuration does not decode,
it decodes and is rejected by `validate`, or one `CreateRecord` is issued. -/
theorem Present_cases (w : World σ) (ch : ChallengeRequest) (s : σ) :
    (∃ err, (loadConfig w ch.Config).2 = some err ∧ (Present w ch s).trace = [] ∧
      (Present w ch s).outcome = Outcome.returned (some err)) ∨
    ((loadConfig w ch.Config).2 = none ∧
      (∃ err, validate (loadConfig w ch.Config).1 ch.AllowAmbientCredentials = some err) ∧
      (Present w ch s).trace = [] ∧ (Present w ch s).outcome = Outcome.panicked) ∨
    ((loadConfig w ch.Config).2 = none ∧
      validate (loadConfig w ch.Config).1 ch.AllowAmbientCredentials = none ∧
      ∃ client resp,
        (Present w ch s).trace =
          [Event.createRecord client (loadConfig w ch.Config).1.AccountID
            (stringsTrimRight ch.ResolvedZone (utf8 "."))
            ⟨0, extractRecordName ch.ResolvedFQDN ch.ResolvedZone, utf8 "TXT", 300, ch.Key⟩ resp] ∧
        (resp = none → (Present w ch s).outcome = Outcome.returned none) ∧
        (∀ e, resp = some e → stringsContains e.msg (utf8 "record already exists") = true →
          (Present w ch s).outcome = Outcome.returned none) ∧
        (∀ e, resp = some e → stringsContains e.msg (utf8 "record already exists") = false →
          (Present w ch s).outcome = Outcome.returned (some e))) := by
  rcases hlc : loadConfig w ch.Config with ⟨cfg, err⟩
  cases err with
  | some err =>
    left
    exact ⟨err, rfl, by simp only [Present, hlc], by simp only [Present, hlc]⟩
  | none =>
    right
    have hdec : (loadConfig w ch.Config).2 = none := by rw [hlc]
    cases hv : validate cfg ch.AllowAmbientCredentials with
    | some e =>
      left
      have hcl := dnsimpleClient_of_invalid w s ch e hdec (by rw [hlc]; exact hv)
      exact ⟨rfl, ⟨e, rfl⟩, by simp only [Present, hlc, hcl], by simp only [Present, hlc, hcl]⟩
    | none =>
      right
      have hcl := dnsimpleClient_of_valid w s ch hdec (by rw [hlc]; exact hv)
      rw [hlc] at hcl
      refine ⟨rfl, rfl, ⟨(secret w s cfg.AccessTokenSecretRef ch.ResourceNamespace).1⟩, ?_⟩
      simp only [Present, hlc, hcl]
      rcases hcr : w.CreateRecord (secret w s cfg.AccessTokenSecretRef ch.ResourceNamespace).2.2
        ⟨(secret w s cfg.AccessTokenSecretRef ch.ResourceNamespace).1⟩ cfg.AccountID
        (stringsTrimRight ch.ResolvedZone (utf8 "."))
        ⟨0, extractRecordName ch.ResolvedFQDN ch.ResolvedZone, utf8 "TXT", 300, ch.Key⟩
        with ⟨resp, s2⟩
      cases resp with
      | none => exact ⟨none, by simp⟩
      | some e =>
        refine ⟨some e, ?_⟩
        by_cases hc : stringsContains e.msg (utf8 "record already exists") = true
        · simp [hc]
        · simp [hc]

/-- With a decodable configuration that passes `validate`, `Present` sends one
`CreateRecord` with the client built from the secret lookup; the logged answer
and the final state are those of the provider, and a nil answer gives nil. -/
theorem Present_of_valid (w : World σ) (ch : ChallengeRequest) (s : σ)
    (hdec : (loadConfig w ch.Config).2 = none)
    (hval : validate (loadConfig w ch.Config).1 ch.AllowAmbientCredentials = none) :
    (Present w ch s).trace =
      [Event.createRecord
        ⟨(secret w s (loadConfig w ch.Config).1.AccessTokenSecretRef ch.ResourceNamespace).1⟩
        (loadConfig w ch.Config).1.AccountID
        (stringsTrimRight ch.ResolvedZone (utf8 "."))
        ⟨0, extractRecordName ch.ResolvedFQDN ch.ResolvedZone, utf8 "TXT", 300, ch.Key⟩
        (w.CreateRecord
          (secret w s (loadConfig w ch.Config).1.AccessTokenSecretRef ch.ResourceNamespace).2.2
          ⟨(secret w s (loadConfig w ch.Config).1.AccessTokenSecretRef ch.ResourceNamespace).1⟩
          (loadConfig w ch.Config).1.AccountID
          (stringsTrimRight ch.ResolvedZone (utf8 "."))
          ⟨0, extractRecordName ch.ResolvedFQDN ch.ResolvedZone, utf8 "TXT", 300, ch.Key⟩).1] ∧
    (Present w ch s).state =
      (w.CreateRecord
        (secret w s (loadConfig w ch.Config).1.AccessTokenSecretRef ch.ResourceNamespace).2.2
        ⟨(secret w s (loadConfig w ch.Config).1.AccessTokenSecretRef ch.ResourceNamespace).1⟩
        (loadConfig w ch.Config).1.AccountID
        (stringsTrimRight ch.ResolvedZone (utf8 "."))
        ⟨0, extractRecordName ch.ResolvedFQDN ch.ResolvedZone, utf8 "TXT", 300, ch.Key⟩).2 ∧
    ((w.CreateRecord
        (secret w s (loadConfig w ch.Config).1.AccessTokenSecretRef ch.ResourceNamespace).2.2
        ⟨(secret w s (loadConfig w ch.Config).1.AccessTokenSecretRef ch.ResourceNamespace).1⟩
        (loadConfig w ch.Config).1.AccountID
        (stringsTrimRight ch.ResolvedZone (utf8 "."))
        ⟨0, extractRecordName ch.ResolvedFQDN ch.ResolvedZone, utf8 "TXT", 300, ch.Key⟩).1 = none →
      (Present w ch s).outcome = Outcome.returned none) := by
  have hcl := dnsimpleClient_of_valid w s ch hdec hval
  rcases hlc : loadConfig w ch.Config with ⟨cfg, err⟩
  rw [hlc] at hdec hcl
  simp only at hdec hcl
  subst hdec
  simp only [Present, hlc, hcl]
  rcases hcr : w.CreateRecord (secret w s cfg.AccessTokenSecretRef ch.ResourceNamespace).2.2
    ⟨(secret w s cfg.AccessTokenSecretRef ch.ResourceNamespace).1⟩ cfg.AccountID
    (stringsTrimRight ch.ResolvedZone (utf8 "."))
    ⟨0, extractRecordName ch.ResolvedFQDN ch.ResolvedZone, utf8 "TXT", 300, ch.Key⟩
    with ⟨resp, s2⟩
  cases resp with
  | none => simp
  | some e =>
    by_cases hc : stringsContains e.msg (utf8 "record already exists") = true
    · simp [hc]
    · simp [hc]

/-- Every request of the deletion loop is a `DeleteRecord` on the given client,
account and zone, for the id of a listed record. -/
theorem deleteRecords_trace (w : World σ) (c : Client) (a z : GoString) (data : List ZoneRecord)
    (s : σ) :
    ∀ ev ∈ (deleteRecords w c a z data s).trace,
      ∃ r ∈ data, ∃ resp, ev = Event.deleteRecord c a z r.ID resp := by
  induction data generalizing s with
  | nil => intro ev hev; simp [deleteRecords] at hev
  | cons r rs ih =>
    intro ev hev
    rcases hd : w.DeleteRecord s c a z r.ID with ⟨resp, s1⟩
    cases resp with
    | some e =>
      simp only [deleteRecords, hd, List.mem_singleton] at hev
      exact ⟨r, List.mem_cons_self r rs, some e, hev⟩
    | none =>
      simp only [deleteRecords, hd, List.mem_cons] at hev
      rcases hev with hev | hev
      · exact ⟨r, List.mem_cons_self r rs, none, hev⟩
      · obtain ⟨r1, hr1, resp, h⟩ := ih s1 ev hev
        exact ⟨r1, List.mem_cons_of_mem r hr1, resp, h⟩

/-- The deletion loop starts by deleting the first listed record. -/
theorem deleteRecords_head (w : World σ) (c : Client) (a z : GoString) (r : ZoneRecord)
    (rs : List ZoneRecord) (s : σ) :
    (deleteRecords w c a z (r :: rs) s).trace.head? =
      some (Event.deleteRecord c a z r.ID (w.DeleteRecord s c a z r.ID).1) := by
  rcases hd : w.DeleteRecord s c a z r.ID with ⟨resp, s1⟩
  cases resp with
  | some e => simp only [deleteRecords, hd, List.head?_cons]
  | none => simp only [deleteRecords, hd, List.head?_cons]

/-- The key of the request is not read by `CleanUp`. -/
theorem CleanUp_ignores_key (w : World σ) (ch : ChallengeRequest) (k : GoString) (s : σ) :
    CleanUp w { ch with Key := k } s = CleanUp w ch s := rfl

/-- The three ways a call of `CleanUp` goes: the configuration does not decode,
it decodes and is rejected by `validate`, or one `ListRecords` is issued,
followed by `DeleteRecord` requests on the same account and zone. -/
theorem CleanUp_cases (w : World σ) (ch : ChallengeRequest) (s : σ) :
    (∃ err, (loadConfig w ch.Config).2 = some err ∧ (CleanUp w ch s).trace = [] ∧
      (CleanUp w ch s).outcome = Outcome.returned (some err)) ∨
    ((loadConfig w ch.Config).2 = none ∧
      (∃ err, validate (loadConfig w ch.Config).1 ch.AllowAmbientCredentials = some err) ∧
      (CleanUp w ch s).trace = [] ∧ (CleanUp w ch s).outcome = Outcome.panicked) ∨
    ((loadConfig w ch.Config).2 = none ∧
      validate (loadConfig w ch.Config).1 ch.AllowAmbientCredentials = none ∧
      ∃ client resp rest,
        (CleanUp w ch s).trace =
          Event.listRecords client (loadConfig w ch.Config).1.AccountID
            (UnFqdn ch.ResolvedZone) (extractRecordName ch.ResolvedFQDN ch.ResolvedZone) resp
            :: rest ∧
        ∀ ev ∈ rest, ∃ recordID resp1,
          ev = Event.deleteRecord client (loadConfig w ch.Config).1.AccountID
            (UnFqdn ch.ResolvedZone) recordID resp1) := by
  rcases hlc : loadConfig w ch.Config with ⟨cfg, err⟩
  cases err with
  | some err =>
    left
    exact ⟨err, rfl, by simp only [CleanUp, hlc], by simp only [CleanUp, hlc]⟩
  | none =>
    right
    have hdec : (loadConfig w ch.Config).2 = none := by rw [hlc]
    cases hv : validate cfg ch.AllowAmbientCredentials with
    | some e =>
      left
      have hcl := dnsimpleClient_of_invalid w s ch e hdec (by rw [hlc]; exact hv)
      exact ⟨rfl, ⟨e, rfl⟩, by simp only [CleanUp, hlc, hcl], by simp only [CleanUp, hlc, hcl]⟩
    | none =>
      right
      have hcl := dnsimpleClient_of_valid w s ch hdec (by rw [hlc]; exact hv)
      rw [hlc] at hcl
      refine ⟨rfl, rfl, ⟨(secret w s cfg.AccessTokenSecretRef ch.ResourceNamespace).1⟩, ?_⟩
      simp only [CleanUp, hlc, hcl]
      rcases hl : w.ListRecords (secret w s cfg.AccessTokenSecretRef ch.ResourceNamespace).2.2
        ⟨(secret w s cfg.AccessTokenSecretRef ch.ResourceNamespace).1⟩ cfg.AccountID
        (UnFqdn ch.ResolvedZone) (extractRecordName ch.ResolvedFQDN ch.ResolvedZone)
        with ⟨resp, s2⟩
      cases resp with
      | failed e => exact ⟨ListResult.failed e, [], rfl, by simp⟩
      | ok data =>
        refine ⟨ListResult.ok data, _, rfl, ?_⟩
        intro ev hev
        obtain ⟨r, _, resp1, h⟩ := deleteRecords_trace w _ _ _ data s2 ev hev
        exact ⟨r.ID, resp1, h⟩

end SolverLemmas

/-! ## The claims -/

section Claims

variable {σ : Type}

/-- C1 (the code at the failing input): the zone lists two TXT records under
`_acme-challenge`, with contents `k1` and `k2`, and the request carries the key
`k1`. `CleanUp` issues `DeleteRecord` for both records, also for record 2 whose
content differs from the key, and leaves the zone empty. -/
theorem CleanUp_deletes_record_of_other_key :
    recordK2.Content ≠ sampleRequest.Key ∧
    (CleanUp sampleWorld sampleRequest ⟨sampleSecrets, [recordK1, recordK2]⟩).trace =
      [Event.listRecords ⟨utf8 "s3cr3t"⟩ (utf8 "1010") (utf8 "example.com")
          (utf8 "_acme-challenge") (ListResult.ok [recordK1, recordK2]),
        Event.deleteRecord ⟨utf8 "s3cr3t"⟩ (utf8 "1010") (utf8 "example.com") 1 none,
        Event.deleteRecord ⟨utf8 "s3cr3t"⟩ (utf8 "1010") (utf8 "example.com") 2 none] ∧
    (CleanUp sampleWorld sampleRequest ⟨sampleSecrets, [recordK1, recordK2]⟩).state.records = [] ∧
    (CleanUp sampleWorld sampleRequest ⟨sampleSecrets, [recordK1, recordK2]⟩).outcome =
      Outcome.returned none := by
  decide

/-- C2: for a request whose configuration decodes and passes `validate`, if
`CreateRecord` fails with an error whose message contains "record already
exists", `Present` returns nil; and after a first call that returned nil, a
second call with the same request, in which every failure of `CreateRecord` is
such an error, returns nil too. -/
theorem Present_idempotent_on_existing_record (w : World σ) (ch : ChallengeRequest) (s : σ)
    (hdec : (loadConfig w ch.Config).2 = none)
    (hval : validate (loadConfig w ch.Config).1 ch.AllowAmbientCredentials = none) :
    (∀ client acct zone rec e,
      Event.createRecord client acct zone rec (some e) ∈ (Present w ch s).trace →
      stringsContains e.msg (utf8 "record already exists") = true →
      (Present w ch s).outcome = Outcome.returned none) ∧
    ((Present w ch s).outcome = Outcome.returned none →
      (∀ client acct zone rec e,
        Event.createRecord client acct zone rec (some e) ∈
          (Present w ch (Present w ch s).state).trace →
        stringsContains e.msg (utf8 "record already exists") = true) →
      (Present w ch (Present w ch s).state).outcome = Outcome.returned none) := by
  have key : ∀ t : σ,
      (∀ client acct zone rec e,
        Event.createRecord client acct zone rec (some e) ∈ (Present w ch t).trace →
        stringsContains e.msg (utf8 "record already exists") = true) →
      (Present w ch t).outcome = Outcome.returned none := by
    intro t hall
    rcases Present_cases w ch t with ⟨err, he, -, -⟩ | ⟨-, ⟨err, he⟩, -, -⟩ |
      ⟨-, -, client, resp, htr, hok, hdup, -⟩
    · rw [hdec] at he; cases he
    · rw [hval] at he; cases he
    · cases resp with
      | none => exact hok rfl
      | some e => exact hdup e rfl (hall _ _ _ _ e (by rw [htr]; exact List.mem_singleton_self _))
  refine ⟨?_, fun _ hall => key _ hall⟩
  intro client acct zone rec e hmem hc
  rcases Present_cases w ch s with ⟨err, he, -, -⟩ | ⟨-, ⟨err, he⟩, -, -⟩ |
    ⟨-, -, client1, resp, htr, -, hdup, -⟩
  · rw [hdec] at he; cases he
  · rw [hval] at he; cases he
  · rw [htr, List.mem_singleton] at hmem
    injection hmem with _ _ _ _ hresp
    exact hdup e hresp.symm hc

/-- Witness of C2: in the sample world the first `Present` creates the record,
the second is answered "record already exists", and both return nil. -/
theorem Present_idempotent_on_existing_record_witness :
    (Present sampleWorld sampleRequest ⟨sampleSecrets, []⟩).outcome = Outcome.returned none ∧
    Event.createRecord ⟨utf8 "s3cr3t"⟩ (utf8 "1010") (utf8 "example.com")
      ⟨0, utf8 "_acme-challenge", utf8 "TXT", 300, utf8 "k1"⟩
      (some ⟨utf8 "Validation failed: record already exists"⟩) ∈
      (Present sampleWorld sampleRequest
        (Present sampleWorld sampleRequest ⟨sampleSecrets, []⟩).state).trace ∧
    (Present sampleWorld sampleRequest
      (Present sampleWorld sampleRequest ⟨sampleSecrets, []⟩).state).outcome =
        Outcome.returned none ∧
    (Present sampleWorld sampleRequest ⟨sampleSecrets, [recordK1]⟩).outcome =
      Outcome.returned none :=
  ⟨by decide, by decide,
    (Present_idempotent_on_existing_record sampleWorld sampleRequest ⟨sampleSecrets, []⟩
      (by decide) (by decide)).2 (by decide)
      (fun client acct zone rec e hmem => by
        have htr : (Present sampleWorld sampleRequest
            (Present sampleWorld sampleRequest ⟨sampleSecrets, []⟩).state).trace =
            [Event.createRecord ⟨utf8 "s3cr3t"⟩ (utf8 "1010") (utf8 "example.com")
              ⟨0, utf8 "_acme-challenge", utf8 "TXT", 300, utf8 "k1"⟩
              (some ⟨utf8 "Validation failed: record already exists"⟩)] := by decide
        rw [htr, List.mem_singleton] at hmem
        injection hmem with _ _ _ _ hresp
        injection hresp with he
        subst he
        decide),
    (Present_idempotent_on_existing_record sampleWorld sampleRequest ⟨sampleSecrets, [recordK1]⟩
      (by decide) (by decide)).1 ⟨utf8 "s3cr3t"⟩ (utf8 "1010") (utf8 "example.com")
      ⟨0, utf8 "_acme-challenge", utf8 "TXT", 300, utf8 "k1"⟩
      ⟨utf8 "Validation failed: record already exists"⟩ (by decide) (by decide)⟩

/-- C3 (the code at the failing inputs): ambient credentials are not allowed and
the configuration is nil (empty account id) or names no secret. `dnsimpleClient`
returns a nil client with the error of `validate`; `Present` and `CleanUp` drop
that error, dereference the nil client and panic instead of returning an error.
No request reaches the DNS provider. -/
theorem handlers_panic_on_rejected_config :
    noConfigRequest.AllowAmbientCredentials = false ∧
    (loadConfig sampleWorld noConfigRequest.Config).1.AccountID = [] ∧
    (dnsimpleClient sampleWorld ⟨sampleSecrets, []⟩ noConfigRequest).1 = none ∧
    (dnsimpleClient sampleWorld ⟨sampleSecrets, []⟩ noConfigRequest).2.1 =
      some (errorsNew "no account id provided in dnsimple config") ∧
    (Present sampleWorld noConfigRequest ⟨sampleSecrets, []⟩).outcome = Outcome.panicked ∧
    (Present sampleWorld noConfigRequest ⟨sampleSecrets, []⟩).trace = [] ∧
    (CleanUp sampleWorld noConfigRequest ⟨sampleSecrets, []⟩).outcome = Outcome.panicked ∧
    (CleanUp sampleWorld noConfigRequest ⟨sampleSecrets, []⟩).trace = [] ∧
    (loadConfig sampleWorld noSecretRefRequest.Config).1.AccessTokenSecretRef.Name = [] ∧
    (dnsimpleClient sampleWorld ⟨sampleSecrets, []⟩ noSecretRefRequest).2.1 =
      some (errorsNew "no access token secret provided in dnsimple config") ∧
    (Present sampleWorld noSecretRefRequest ⟨sampleSecrets, []⟩).outcome = Outcome.panicked ∧
    (Present sampleWorld noSecretRefRequest ⟨sampleSecrets, []⟩).trace = [] ∧
    (CleanUp sampleWorld noSecretRefRequest ⟨sampleSecrets, []⟩).outcome = Outcome.panicked ∧
    (CleanUp sampleWorld noSecretRefRequest ⟨sampleSecrets, []⟩).trace = [] := by
  decide

/-- C4 (the code at the failing inputs): the configuration passes `validate` and
the secret lookup fails, once because the secret does not exist and once
because it has no entry for the key. `dnsimpleClient` drops the error of
`secret` and returns a client with an empty access token and a nil error, and
`Present` sends `CreateRecord` with that client. -/
theorem dnsimpleClient_drops_secret_error :
    sampleRequest.AllowAmbientCredentials = false ∧
    validate (loadConfig sampleWorld sampleRequest.Config).1 false = none ∧
    (secret sampleWorld ⟨[], []⟩ sampleConfig.AccessTokenSecretRef (utf8 "cert-manager")).2.1 =
      some ⟨utf8 "secret not found"⟩ ∧
    (dnsimpleClient sampleWorld ⟨[], []⟩ sampleRequest).1 = some ⟨[]⟩ ∧
    (dnsimpleClient sampleWorld ⟨[], []⟩ sampleRequest).2.1 = none ∧
    (secret sampleWorld ⟨otherKeySecrets, []⟩ sampleConfig.AccessTokenSecretRef
      (utf8 "cert-manager")).2.1 =
      some ⟨utf8 "key not found \"token\" in secret 'cert-manager/dnsimple-credentials'"⟩ ∧
    (dnsimpleClient sampleWorld ⟨otherKeySecrets, []⟩ sampleRequest).1 = some ⟨[]⟩ ∧
    (dnsimpleClient sampleWorld ⟨otherKeySecrets, []⟩ sampleRequest).2.1 = none ∧
    (Present sampleWorld sampleRequest ⟨[], []⟩).trace =
      [Event.createRecord ⟨[]⟩ (utf8 "1010") (utf8 "example.com")
        ⟨0, utf8 "_acme-challenge", utf8 "TXT", 300, utf8 "k1"⟩ none] := by
  decide

/-- C5: `validate` returns nil exactly when ambient credentials are allowed or
both the account id and the secret name are non-empty; when they are not
allowed, an empty account id gives the error "no account id provided in
dnsimple config", and otherwise an empty secret name gives "no access token
secret provided in dnsimple config". -/
theorem validate_exact (cfg : dnsimpleProviderConfig) (allowAmbientCredentials : Bool) :
    (validate cfg allowAmbientCredentials = none ↔
      (allowAmbientCredentials = true ∨
        (cfg.AccountID ≠ [] ∧ cfg.AccessTokenSecretRef.Name ≠ []))) ∧
    (allowAmbientCredentials = false → cfg.AccountID = [] →
      validate cfg allowAmbientCredentials =
        some ⟨utf8 "no account id provided in dnsimple config"⟩) ∧
    (allowAmbientCredentials = false → cfg.AccountID ≠ [] → cfg.AccessTokenSecretRef.Name = [] →
      validate cfg allowAmbientCredentials =
        some ⟨utf8 "no access token secret provided in dnsimple config"⟩) := by
  cases allowAmbientCredentials <;> by_cases ha : cfg.AccountID = [] <;>
    by_cases hn : cfg.AccessTokenSecretRef.Name = [] <;> simp [validate, errorsNew, ha, hn]

/-- Witness of C5: the three outcomes of `validate` on concrete configurations. -/
theorem validate_exact_witness :
    validate sampleConfig false = none ∧
    validate ⟨[], ⟨utf8 "dnsimple-credentials", utf8 "token"⟩⟩ false =
      some ⟨utf8 "no account id provided in dnsimple config"⟩ ∧
    validate ⟨utf8 "1010", ⟨[], []⟩⟩ false =
      some ⟨utf8 "no access token secret provided in dnsimple config"⟩ :=
  ⟨(validate_exact sampleConfig false).1.mpr (Or.inr ⟨by decide, by decide⟩),
    (validate_exact ⟨[], ⟨utf8 "dnsimple-credentials", utf8 "token"⟩⟩ false).2.1 rfl rfl,
    (validate_exact ⟨utf8 "1010", ⟨[], []⟩⟩ false).2.2 rfl (by decide) rfl⟩

/-- C6: for a request whose configuration decodes and passes `validate`,
`Present` issues exactly one provider request, `CreateRecord`, on the client
built from the secret lookup, with the account id of the configuration, the
resolved zone without trailing dots, and a record of type "TXT" and TTL 300
whose content is the key and whose name is
`extractRecordName(ResolvedFQDN, ResolvedZone)`. The logged answer is what the
provider answered to that request, the world is left in the state the provider
left it in, and when the request succeeds `Present` returns nil. -/
theorem Present_creates_the_challenge_record (w : World σ) (ch : ChallengeRequest) (s : σ)
    (hdec : (loadConfig w ch.Config).2 = none)
    (hval : validate (loadConfig w ch.Config).1 ch.AllowAmbientCredentials = none) :
    let cfg := (loadConfig w ch.Config).1
    let token := secret w s cfg.AccessTokenSecretRef ch.ResourceNamespace
    let zone := stringsTrimRight ch.ResolvedZone (utf8 ".")
    let record : ZoneRecord :=
      { ID := 0
        Name := extractRecordName ch.ResolvedFQDN ch.ResolvedZone
        Type_ := utf8 "TXT"
        TTL := 300
        Content := ch.Key }
    let answer := w.CreateRecord token.2.2 ⟨token.1⟩ cfg.AccountID zone record
    (Present w ch s).trace = [Event.createRecord ⟨token.1⟩ cfg.AccountID zone record answer.1] ∧
    (Present w ch s).state = answer.2 ∧
    (answer.1 = none → (Present w ch s).outcome = Outcome.returned none) :=
  Present_of_valid w ch s hdec hval

/-- Witness of C6: the sample request on an empty zone. `Present` sends the one
`CreateRecord` with the token of the secret, the zone then holds the record,
and `Present` returns nil. -/
theorem Present_creates_the_challenge_record_witness :
    (Present sampleWorld sampleRequest ⟨sampleSecrets, []⟩).trace =
      [Event.createRecord ⟨utf8 "s3cr3t"⟩ (utf8 "1010") (utf8 "example.com")
        ⟨0, utf8 "_acme-challenge", utf8 "TXT", 300, utf8 "k1"⟩ none] ∧
    (Present sampleWorld sampleRequest ⟨sampleSecrets, []⟩).state =
      ⟨sampleSecrets, [recordK1]⟩ ∧
    (Present sampleWorld sampleRequest ⟨sampleSecrets, []⟩).outcome = Outcome.returned none :=
  ⟨(Present_creates_the_challenge_record sampleWorld sampleRequest ⟨sampleSecrets, []⟩
      (by decide) (by decide)).1.trans (by decide),
    (Present_creates_the_challenge_record sampleWorld sampleRequest ⟨sampleSecrets, []⟩
      (by decide) (by decide)).2.1.trans (by decide),
    (Present_creates_the_challenge_record sampleWorld sampleRequest ⟨sampleSecrets, []⟩
      (by decide) (by decide)).2.2 (by decide)⟩

/-- C7: if `CreateRecord` fails with an error whose message does not contain
"record already exists", `Present` returns that error; and `Present` returns
nil if and only if it issued `CreateRecord` and the request succeeded or failed
with a message that contains "record already exists". -/
theorem Present_tolerates_no_other_failure (w : World σ) (ch : ChallengeRequest) (s : σ) :
    (∀ client acct zone rec e,
      Event.createRecord client acct zone rec (some e) ∈ (Present w ch s).trace →
      stringsContains e.msg (utf8 "record already exists") = false →
      (Present w ch s).outcome = Outcome.returned (some e)) ∧
    ((Present w ch s).outcome = Outcome.returned none ↔
      ∃ client acct zone rec resp,
        Event.createRecord client acct zone rec resp ∈ (Present w ch s).trace ∧
        (resp = none ∨
          ∃ e, resp = some e ∧ stringsContains e.msg (utf8 "record already exists") = true)) := by
  rcases Present_cases w ch s with ⟨err, -, htr, hout⟩ | ⟨-, -, htr, hout⟩ |
    ⟨-, -, client, resp, htr, hok, hdup, hother⟩
  · rw [htr, hout]
    simp
  · rw [htr, hout]
    simp
  · constructor
    · intro client1 acct zone rec e hmem hc
      rw [htr, List.mem_singleton] at hmem
      injection hmem with _ _ _ _ hresp
      exact hother e hresp.symm hc
    · constructor
      · intro hnil
        refine ⟨client, _, _, _, resp, by rw [htr]; exact List.mem_singleton_self _, ?_⟩
        cases resp with
        | none => exact Or.inl rfl
        | some e =>
          right
          refine ⟨e, rfl, ?_⟩
          by_contra hc
          have hout := hother e rfl (by simpa using hc)
          rw [hout] at hnil
          cases hnil
      · rintro ⟨client1, acct, zone, rec, resp1, hmem, hresp⟩
        rw [htr, List.mem_singleton] at hmem
        injection hmem with _ _ _ _ hr
        subst hr
        rcases hresp with h | ⟨e, h, hc⟩
        · exact hok h
        · exact hdup e h hc

/-- Witness of C7: a provider that is out of service; `Present` returns its error. -/
theorem Present_tolerates_no_other_failure_witness :
    (Present downWorld sampleRequest ⟨sampleSecrets, []⟩).outcome =
      Outcome.returned (some ⟨utf8 "503 Service Unavailable"⟩) :=
  (Present_tolerates_no_other_failure downWorld sampleRequest ⟨sampleSecrets, []⟩).1
    ⟨utf8 "s3cr3t"⟩ (utf8 "1010") (utf8 "example.com")
    ⟨0, utf8 "_acme-challenge", utf8 "TXT", 300, utf8 "k1"⟩ ⟨utf8 "503 Service Unavailable"⟩
    (by decide) (by decide)

/-- C8: for a nil raw configuration `loadConfig` returns the zero configuration
and no error; `validate` rejects it with the missing-account-id error when
ambient credentials are not allowed, and accepts it when they are. -/
theorem loadConfig_nil (w : World σ) :
    loadConfig w none = (⟨[], ⟨[], []⟩⟩, none) ∧
    validate (loadConfig w none).1 false =
      some ⟨utf8 "no account id provided in dnsimple config"⟩ ∧
    validate (loadConfig w none).1 true = none :=
  ⟨rfl, rfl, rfl⟩

/-- C9 (the code at the failing inputs): the relative names `a.example.com.b`
and `_acme-challenge.example.com` and the zone `example.com` are non-empty and
do not end in a dot, and `extractRecordName` cuts them at the first
`.example.com`: it returns `a` and `_acme-challenge`. For the second name
`Present` creates the record `_acme-challenge`, and `CleanUp` lists that name
and deletes the challenge record of `example.com` itself. -/
theorem extractRecordName_cuts_at_first_occurrence :
    utf8 "a.example.com.b" ≠ [] ∧ utf8 "_acme-challenge.example.com" ≠ [] ∧
    utf8 "example.com" ≠ [] ∧
    (utf8 "a.example.com.b").getLast? ≠ some dot ∧
    (utf8 "_acme-challenge.example.com").getLast? ≠ some dot ∧
    (utf8 "example.com").getLast? ≠ some dot ∧
    utf8 "a.example.com.b" ++ dot :: utf8 "example.com" ++ [dot] =
      utf8 "a.example.com.b.example.com." ∧
    extractRecordName (utf8 "a.example.com.b" ++ dot :: utf8 "example.com" ++ [dot])
      (utf8 "example.com" ++ [dot]) = utf8 "a" ∧
    extractRecordName (utf8 "a.example.com.b" ++ dot :: utf8 "example.com" ++ [dot])
      (utf8 "example.com" ++ [dot]) ≠ utf8 "a.example.com.b" ∧
    utf8 "_acme-challenge.example.com" ++ dot :: utf8 "example.com" ++ [dot] =
      nestedRequest.ResolvedFQDN ∧
    utf8 "example.com" ++ [dot] = nestedRequest.ResolvedZone ∧
    extractRecordName nestedRequest.ResolvedFQDN nestedRequest.ResolvedZone =
      utf8 "_acme-challenge" ∧
    extractRecordName nestedRequest.ResolvedFQDN nestedRequest.ResolvedZone ≠
      utf8 "_acme-challenge.example.com" ∧
    (Present sampleWorld nestedRequest ⟨sampleSecrets, []⟩).trace =
      [Event.createRecord ⟨utf8 "s3cr3t"⟩ (utf8 "1010") (utf8 "example.com")
        ⟨0, utf8 "_acme-challenge", utf8 "TXT", 300, utf8 "k1"⟩ none] ∧
    (CleanUp sampleWorld nestedRequest ⟨sampleSecrets, [recordK2]⟩).trace =
      [Event.listRecords ⟨utf8 "s3cr3t"⟩ (utf8 "1010") (utf8 "example.com")
          (utf8 "_acme-challenge") (ListResult.ok [recordK2]),
        Event.deleteRecord ⟨utf8 "s3cr3t"⟩ (utf8 "1010") (utf8 "example.com") 2 none] := by
  decide

/-- Where the code does recover the name: for a non-empty relative name `n` and
a non-empty zone `z`, neither ending in a dot, such that `.z` does not occur in
`n.z` before offset `len(n)`, `extractRecordName(n.z., z.)` is `n`, and so it is
when the trailing dot is left out of either argument. -/
theorem extractRecordName_relative_name (n z : GoString)
    (_hn : n ≠ []) (hz : z ≠ []) (_hnd : n.getLast? ≠ some dot) (hzd : z.getLast? ≠ some dot)
    (hfirst : ∀ j, j < n.length → ¬ (dot :: z) <+: (n ++ dot :: z).drop j) :
    extractRecordName (n ++ dot :: z ++ [dot]) (z ++ [dot]) = n ∧
    extractRecordName (n ++ dot :: z) (z ++ [dot]) = n ∧
    extractRecordName (n ++ dot :: z ++ [dot]) z = n ∧
    extractRecordName (n ++ dot :: z) z = n := by
  have hcore := extractRecordName_core n z hz hzd hfirst
  obtain ⟨h1, h2, h3⟩ := extractRecordName_dots n z hz hzd
  exact ⟨h1.trans hcore, h2.trans hcore, h3.trans hcore, hcore⟩

/-- The name `_acme-challenge` in the zone `example.com` is recovered, with and
without the trailing dots. -/
theorem extractRecordName_relative_name_witness :
    extractRecordName (utf8 "_acme-challenge" ++ dot :: utf8 "example.com" ++ [dot])
      (utf8 "example.com" ++ [dot]) = utf8 "_acme-challenge" ∧
    extractRecordName (utf8 "_acme-challenge" ++ dot :: utf8 "example.com")
      (utf8 "example.com" ++ [dot]) = utf8 "_acme-challenge" ∧
    extractRecordName (utf8 "_acme-challenge" ++ dot :: utf8 "example.com" ++ [dot])
      (utf8 "example.com") = utf8 "_acme-challenge" ∧
    extractRecordName (utf8 "_acme-challenge" ++ dot :: utf8 "example.com")
      (utf8 "example.com") = utf8 "_acme-challenge" :=
  extractRecordName_relative_name (utf8 "_acme-challenge") (utf8 "example.com")
    (by decide) (by decide) (by decide) (by decide) (by decide)

/-- C10 (counterexample): for the zone `example.com..` `Present` sends
`CreateRecord` to the zone `example.com`, and `CleanUp` sends `ListRecords` and
`DeleteRecord` to the zone `example.com.`. -/
theorem Present_CleanUp_zone_mismatch :
    (Present sampleWorld dottedRequest ⟨sampleSecrets, []⟩).trace =
      [Event.createRecord ⟨utf8 "s3cr3t"⟩ (utf8 "1010") (utf8 "example.com")
        ⟨0, utf8 "_acme-challenge", utf8 "TXT", 300, utf8 "k1"⟩ none] ∧
    (CleanUp sampleWorld dottedRequest ⟨sampleSecrets, [recordK1]⟩).trace =
      [Event.listRecords ⟨utf8 "s3cr3t"⟩ (utf8 "1010") (utf8 "example.com.")
          (utf8 "_acme-challenge") (ListResult.ok [recordK1]),
        Event.deleteRecord ⟨utf8 "s3cr3t"⟩ (utf8 "1010") (utf8 "example.com.") 1 none] ∧
    stringsTrimRight dottedRequest.ResolvedZone (utf8 ".") ≠ UnFqdn dottedRequest.ResolvedZone := by
  decide

/-- C10 (amended): for every request whose resolved zone does not end in two
dots, `strings.TrimRight(ResolvedZone, ".")` equals `UnFqdn(ResolvedZone)`, and
every `CreateRecord` of `Present` names the zone that every `ListRecords` and
`DeleteRecord` of `CleanUp` names, with the record name that `ListRecords`
asks for. -/
theorem Present_CleanUp_same_record (w : World σ) (ch : ChallengeRequest) (s t : σ)
    (hzone : ¬ [dot, dot] <:+ ch.ResolvedZone) :
    stringsTrimRight ch.ResolvedZone (utf8 ".") = UnFqdn ch.ResolvedZone ∧
    ∀ client acct zone rec resp,
      Event.createRecord client acct zone rec resp ∈ (Present w ch s).trace →
      (zone = stringsTrimRight ch.ResolvedZone (utf8 ".") ∧
        rec.Name = extractRecordName ch.ResolvedFQDN ch.ResolvedZone) ∧
      (∀ client1 acct1 zone1 name1 resp1,
        Event.listRecords client1 acct1 zone1 name1 resp1 ∈ (CleanUp w ch t).trace →
        zone1 = zone ∧ name1 = rec.Name) ∧
      (∀ client1 acct1 zone1 recordID resp1,
        Event.deleteRecord client1 acct1 zone1 recordID resp1 ∈ (CleanUp w ch t).trace →
        zone1 = zone) := by
  have hz := (stringsTrimRight_eq_UnFqdn_iff ch.ResolvedZone).mpr hzone
  refine ⟨hz, ?_⟩
  intro client acct zone rec resp hmem
  have hP : zone = stringsTrimRight ch.ResolvedZone (utf8 ".") ∧
      rec.Name = extractRecordName ch.ResolvedFQDN ch.ResolvedZone := by
    rcases Present_cases w ch s with ⟨_, -, htr, -⟩ | ⟨-, -, htr, -⟩ | ⟨-, -, _, _, htr, -⟩
    · rw [htr] at hmem; cases hmem
    · rw [htr] at hmem; cases hmem
    · rw [htr, List.mem_singleton] at hmem
      injection hmem with _ _ hzn hrec _
      exact ⟨hzn, by rw [hrec]⟩
  refine ⟨hP, ?_, ?_⟩
  · intro client1 acct1 zone1 name1 resp1 hmem1
    rcases CleanUp_cases w ch t with ⟨_, -, htr, -⟩ | ⟨-, -, htr, -⟩ |
      ⟨-, -, c, r, rest, htr, hrest⟩
    · rw [htr] at hmem1; cases hmem1
    · rw [htr] at hmem1; cases hmem1
    · rw [htr, List.mem_cons] at hmem1
      rcases hmem1 with h | h
      · injection h with _ _ hzn hnm _
        exact ⟨by rw [hzn, hP.1, hz], by rw [hnm, hP.2]⟩
      · obtain ⟨_, _, h1⟩ := hrest _ h
        cases h1
  · intro client1 acct1 zone1 recordID resp1 hmem1
    rcases CleanUp_cases w ch t with ⟨_, -, htr, -⟩ | ⟨-, -, htr, -⟩ |
      ⟨-, -, c, r, rest, htr, hrest⟩
    · rw [htr] at hmem1; cases hmem1
    · rw [htr] at hmem1; cases hmem1
    · rw [htr, List.mem_cons] at hmem1
      rcases hmem1 with h | h
      · cases h
      · obtain ⟨_, _, h1⟩ := hrest _ h
        injection h1 with _ _ hzn _ _
        rw [hzn, hP.1, hz]

/-- Witness of C10: the sample request, whose zone `example.com.` ends in one
dot; `Present` and `CleanUp` both address the zone `example.com`. -/
theorem Present_CleanUp_same_record_witness :
    stringsTrimRight sampleRequest.ResolvedZone (utf8 ".") = UnFqdn sampleRequest.ResolvedZone ∧
    (∀ client1 acct1 zone1 name1 resp1,
      Event.listRecords client1 acct1 zone1 name1 resp1 ∈
        (CleanUp sampleWorld sampleRequest ⟨sampleSecrets, [recordK1]⟩).trace →
      zone1 = utf8 "example.com" ∧ name1 = utf8 "_acme-challenge") ∧
    (∀ client1 acct1 zone1 recordID resp1,
      Event.deleteRecord client1 acct1 zone1 recordID resp1 ∈
        (CleanUp sampleWorld sampleRequest ⟨sampleSecrets, [recordK1]⟩).trace →
      zone1 = utf8 "example.com") :=
  ⟨(Present_CleanUp_same_record sampleWorld sampleRequest ⟨sampleSecrets, []⟩
      ⟨sampleSecrets, [recordK1]⟩ (by decide)).1,
    ((Present_CleanUp_same_record sampleWorld sampleRequest ⟨sampleSecrets, []⟩
      ⟨sampleSecrets, [recordK1]⟩ (by decide)).2 ⟨utf8 "s3cr3t"⟩ (utf8 "1010")
      (utf8 "example.com") ⟨0, utf8 "_acme-challenge", utf8 "TXT", 300, utf8 "k1"⟩ none
      (by decide)).2⟩

end Claims

end DNSimple
